import Mathlib

/-!
Verification development for the skill-inspector inspection engine.

The definitions below are a shallow embedding of the TypeScript sources:
  * `src/core/patternScanner.ts`  (`PATTERN_RULES`, `scanPatterns`)
  * `src/core/complianceMapper.ts` (`MAPPING_RULES`, `mapCompliance`)
  * `src/workflows/orchestrator.ts` (`classifyAgent`, `calculateNormalizedScore`,
    `runWithTimeout`, `runSecurityCheck`, `runCompatCheck`, `runInspectorWorkflow`)

JavaScript strings are modelled as Lean `String` / `List Char`; the regular
expressions of the two rule catalogs are translated rule by rule into
executable matchers on `List Char`.  Asynchronous checker behaviour
(success, thrown exception / rejection, timeout) is modelled by explicit
outcome data passed to the engine, so the engine itself is a pure function
of those outcomes.  The report `timestamp` (a wall-clock read) is the one
field not modelled.
-/

namespace SkillInspector

/-! ## Characters that cannot appear literally in this file -/

def aposChar : Char := Char.ofNat 39

def backtickChar : Char := Char.ofNat 96

def backslashChar : Char := Char.ofNat 92

def newlineChar : Char := Char.ofNat 10

def aposStr : String := String.mk [aposChar]

/-! ## Core data model (src/core/types.ts) -/

inductive Severity
  | low
  | medium
  | high
  | critical
deriving DecidableEq, Repr

structure ComplianceRef where
  framework : String
  id : String
  name : String
  url : String
deriving DecidableEq, Repr

/-- A finding.  `agent` is optional in the step-output schema (the engine
fills in defaults), and `compliance` is attached by the compliance mapper. -/
structure Finding where
  severity : Severity
  message : String
  fix : Option String := none
  agent : Option String := none
  compliance : Option (List ComplianceRef) := none
deriving DecidableEq, Repr

/-! ## List-of-characters utilities used by the regex translations -/

/-- The `headMatch needle hay`: `needle` occurs at the very start of `hay`. -/
def headMatch : List Char → List Char → Bool
  | [], _ => true
  | _ :: _, [] => false
  | n :: ns, c :: cs => n = c && headMatch ns cs

/-- The `existsSuffix p cs`: `p` holds on some suffix of `cs` (including `cs`
itself and `[]`); this is how an unanchored regex is tried at every
position of the subject string. -/
def existsSuffix (p : List Char → Bool) : List Char → Bool
  | [] => p []
  | c :: cs => p (c :: cs) || existsSuffix p cs

/-- Substring test: `needle` occurs contiguously somewhere in `hay`. -/
def containsChars (needle hay : List Char) : Bool :=
  existsSuffix (headMatch needle) hay

def lowerAll (l : List Char) : List Char := l.map Char.toLower

/-- Case-insensitive substring test on strings (JS `/needle/i.test hay`
for a literal needle). -/
def containsCI (needle hay : String) : Bool :=
  containsChars (lowerAll needle.data) (lowerAll hay.data)

/-- Match a literal at the head of the input, returning the rest. -/
def litAt : List Char → List Char → Option (List Char)
  | [], cs => some cs
  | _ :: _, [] => none
  | n :: ns, c :: cs => if c = n then litAt ns cs else none

/-- Case-insensitive `litAt` (the needle is given lowercase). -/
def litAtCI : List Char → List Char → Option (List Char)
  | [], cs => some cs
  | _ :: _, [] => none
  | n :: ns, c :: cs => if c.toLower = n then litAtCI ns cs else none

/-- Consume exactly `n` characters satisfying `φ`, returning the rest. -/
def exactlyAt (φ : Char → Bool) : Nat → List Char → Option (List Char)
  | 0, cs => some cs
  | _ + 1, [] => none
  | n + 1, c :: cs => if φ c then exactlyAt φ n cs else none

/-- Backtracking Kleene star over the class `φ` followed by the
continuation `k`: `φ* k` matches iff some number of `φ`-characters can be
consumed after which `k` matches. -/
def chompThen (φ : Char → Bool) (k : List Char → Bool) : List Char → Bool
  | [] => k []
  | c :: cs => k (c :: cs) || (φ c && chompThen φ k cs)

/-- Bounded repetition `φ{0,n}` followed by the continuation `k`. -/
def upToThen (φ : Char → Bool) : Nat → (List Char → Bool) → List Char → Bool
  | _, k, [] => k []
  | 0, k, cs => k cs
  | n + 1, k, c :: cs => k (c :: cs) || (φ c && upToThen φ n k cs)

/-- The `φ{n,}` followed by the continuation `k`. -/
def atLeastThen (φ : Char → Bool) (n : Nat) (k : List Char → Bool)
    (cs : List Char) : Bool :=
  match exactlyAt φ n cs with
  | some rest => chompThen φ k rest
  | none => false

/-- JS `.` without the `/s` flag: any character except the line
terminators LF, CR, U+2028 and U+2029. -/
def jsDot (c : Char) : Bool :=
  !(c.toNat = 10 || c.toNat = 13 || c.toNat = 0x2028 || c.toNat = 0x2029)

/-- Case-insensitive test for `/a.*b/i`: `a` occurs, then zero or more
non-line-terminator characters, then `b`. -/
def containsSeqCI (a b hay : String) : Bool :=
  let la := lowerAll a.data
  let lb := lowerAll b.data
  existsSuffix
    (fun t => headMatch la t && chompThen jsDot (headMatch lb) (t.drop la.length))
    (lowerAll hay.data)

/-- Sequence a literal before a continuation. -/
def litThen (lit : List Char) (k : List Char → Bool) (cs : List Char) : Bool :=
  match litAt lit cs with
  | some rest => k rest
  | none => false

/-- Case-insensitive `litThen`. -/
def litThenCI (lit : List Char) (k : List Char → Bool) (cs : List Char) : Bool :=
  match litAtCI lit cs with
  | some rest => k rest
  | none => false

/-- Optional literal (`(?:lit)?`) before a continuation. -/
def optLitThen (lit : List Char) (k : List Char → Bool) (cs : List Char) : Bool :=
  k cs || litThen lit k cs

/-- One specific character before a continuation. -/
def charThen (c0 : Char) (k : List Char → Bool) : List Char → Bool
  | [] => false
  | c :: cs => c = c0 && k cs

/-- One character of a class before a continuation. -/
def classThen (φ : Char → Bool) (k : List Char → Bool) : List Char → Bool
  | [] => false
  | c :: cs => φ c && k cs

def matchEnd : List Char → Bool := fun _ => true

/-! ## JS regex character classes -/

/-- JS `\w` (ASCII word character). -/
def isWordChar (c : Char) : Bool := c.isAlphanum || c = '_'

/-- JS `\s` (whitespace, including the common Unicode spaces). -/
def jsSpace (c : Char) : Bool :=
  let n := c.toNat
  n = 32 || n = 9 || n = 10 || n = 11 || n = 12 || n = 13 || n = 160 ||
    n = 0x1680 || (0x2000 ≤ n && n ≤ 0x200a) || n = 0x2028 || n = 0x2029 ||
    n = 0x202f || n = 0x205f || n = 0x3000 || n = 0xfeff

/-- The `[A-Za-z0-9+/]`, the base64 alphabet of the `base64-long-blob` rule. -/
def isBase64Char (c : Char) : Bool :=
  c.isAlphanum || c = '+' || c = '/'

def isUpperHexOrDigit (c : Char) : Bool := c.isDigit || c.isUpper

/-- The `[A-Za-z0-9_-]` (JWT / generic key material). -/
def isKeyChar (c : Char) : Bool := c.isAlphanum || c = '_' || c = '-'

/-- Word boundary after a word character: the next character must be
missing or a non-word character; the continuation then runs at the same
position. -/
def boundaryThen (k : List Char → Bool) : List Char → Bool
  | [] => k []
  | c :: cs => !isWordChar c && k (c :: cs)

/-- The `\b` before a word character, judged from the previous character. -/
def prevBoundary : Option Char → Bool
  | none => true
  | some c => !isWordChar c

/-- Try an at-position matcher (which may inspect the previous character
for `\b`) at every position of the subject. -/
def scanWithPrev (p : Option Char → List Char → Bool) :
    Option Char → List Char → Bool
  | prev, [] => p prev []
  | prev, c :: cs => p prev (c :: cs) || scanWithPrev p (some c) cs

def testAnywhere (p : Option Char → List Char → Bool) (cs : List Char) : Bool :=
  scanWithPrev p none cs

/-! ## Pattern Scanner rule matchers (src/core/patternScanner.ts)

Each `…At` definition is the at-position translation of one rule's
regular expression; `testAnywhere` lifts it to the `RegExp.test`
semantics (match anywhere in the line). -/

/-- The `AKIA[0-9A-Z]{16}` -/
def awsAccessKeyAt (_ : Option Char) (cs : List Char) : Bool :=
  litThen "AKIA".data (fun r => (exactlyAt isUpperHexOrDigit 16 r).isSome) cs

/-- The `gh[pousr]_[A-Za-z0-9_]{36,}` -/
def githubTokenAt (_ : Option Char) (cs : List Char) : Bool :=
  litThen "gh".data
    (classThen (fun c => c = 'p' || c = 'o' || c = 'u' || c = 's' || c = 'r')
      (charThen '_' (fun r => (exactlyAt isWordChar 36 r).isSome))) cs

/-- The `-----BEGIN (?:RSA |EC |DSA |OPENSSH )?PRIVATE KEY-----` -/
def privateKeyBlockAt (_ : Option Char) (cs : List Char) : Bool :=
  litThen "-----BEGIN ".data
    (fun r =>
      litThen "PRIVATE KEY-----".data matchEnd r ||
      ["RSA ", "EC ", "DSA ", "OPENSSH "].any
        (fun v => litThen v.data (litThen "PRIVATE KEY-----".data matchEnd) r))
    cs

/-- The `eyJ[A-Za-z0-9_-]{10,}\.[A-Za-z0-9_-]{10,}\.[A-Za-z0-9_-]{10,}` -/
def jwtTokenAt (_ : Option Char) (cs : List Char) : Bool :=
  litThen "eyJ".data
    (atLeastThen isKeyChar 10
      (charThen '.'
        (atLeastThen isKeyChar 10
          (charThen '.' (fun r => (exactlyAt isKeyChar 10 r).isSome))))) cs

/-- The `(?:api[_-]?key|x-api-key|apikey)\s*[=:]\s*[quote]?[A-Za-z0-9_-]{20,}[quote]?`
(case-insensitive). -/
def genericApiKeyAt (_ : Option Char) (cs : List Char) : Bool :=
  let tail : List Char → Bool :=
    chompThen jsSpace
      (classThen (fun c => c = '=' || c = ':')
        (chompThen jsSpace
          (fun r =>
            (fun r2 => (exactlyAt isKeyChar 20 r2).isSome) r ||
            classThen (fun c => c = aposChar || c = '"')
              (fun r2 => (exactlyAt isKeyChar 20 r2).isSome) r)))
  ["api_key", "api-key", "apikey", "x-api-key"].any
    (fun a => litThenCI a.data tail cs)

/-- The `(?:secret|token|password|passwd)\s*[=:]\s*[quote][^quotes]{8,}[quote]`
(case-insensitive; `[quote]` is `'` or `"`). -/
def genericSecretAt (_ : Option Char) (cs : List Char) : Bool :=
  let isQuote : Char → Bool := fun c => c = aposChar || c = '"'
  let tail : List Char → Bool :=
    chompThen jsSpace
      (classThen (fun c => c = '=' || c = ':')
        (chompThen jsSpace
          (classThen isQuote
            (atLeastThen (fun c => !isQuote c) 8 (classThen isQuote matchEnd)))))
  ["secret", "token", "password", "passwd"].any
    (fun a => litThenCI a.data tail cs)

/-- The `\brm\s+-[a-zA-Z]*[rf][a-zA-Z]*` -/
def rmRfAt (prev : Option Char) (cs : List Char) : Bool :=
  prevBoundary prev &&
    litThen "rm".data
      (classThen jsSpace
        (chompThen jsSpace
          (charThen '-'
            (chompThen (fun c => c.isAlpha)
              (classThen (fun c => c = 'r' || c = 'f') matchEnd))))) cs

/-- The `curl\b[^\n|]*\|\s*(?:ba)?sh\b` -/
def curlPipeShellAt (_ : Option Char) (cs : List Char) : Bool :=
  litThen "curl".data
    (boundaryThen
      (chompThen (fun c => c ≠ newlineChar && c ≠ '|')
        (charThen '|'
          (chompThen jsSpace
            (optLitThen "ba".data
              (litThen "sh".data (boundaryThen matchEnd))))))) cs

/-- The `wget\b[^\n|]*\|\s*(?:ba)?sh\b` -/
def wgetPipeShellAt (_ : Option Char) (cs : List Char) : Bool :=
  litThen "wget".data
    (boundaryThen
      (chompThen (fun c => c ≠ newlineChar && c ≠ '|')
        (charThen '|'
          (chompThen jsSpace
            (optLitThen "ba".data
              (litThen "sh".data (boundaryThen matchEnd))))))) cs

/-- The `\beval\s*\(` -/
def evalCallAt (prev : Option Char) (cs : List Char) : Bool :=
  prevBoundary prev &&
    litThen "eval".data (chompThen jsSpace (charThen '(' matchEnd)) cs

/-- The `\bexec\s*\(\s*[quote][^quotes,)]{0,20}(?:bash|sh|cmd|powershell)`
(case-insensitive; `[quote]` is `'`, `"` or a backtick). -/
def execShellStringAt (prev : Option Char) (cs : List Char) : Bool :=
  let isQuote3 : Char → Bool :=
    fun c => c = aposChar || c = '"' || c = backtickChar
  prevBoundary prev &&
    litThenCI "exec".data
      (chompThen jsSpace
        (charThen '('
          (chompThen jsSpace
            (classThen isQuote3
              (upToThen (fun c => !(isQuote3 c || c = ',' || c = ')')) 20
                (fun r =>
                  ["bash", "sh", "cmd", "powershell"].any
                    (fun w => (litAtCI w.data r).isSome))))))) cs

/-- The `curl\b[^\n]*(?:--data|-d)\s[^\n]*https?:\/\/` -/
def curlDataPostAt (_ : Option Char) (cs : List Char) : Bool :=
  let urlTail : List Char → Bool :=
    litThen "http".data (optLitThen "s".data (litThen "://".data matchEnd))
  litThen "curl".data
    (boundaryThen
      (chompThen (fun c => c ≠ newlineChar)
        (fun r =>
          (litThen "--data".data
            (classThen jsSpace
              (chompThen (fun c => c ≠ newlineChar) urlTail)) r) ||
          (litThen "-d".data
            (classThen jsSpace
              (chompThen (fun c => c ≠ newlineChar) urlTail)) r)))) cs

/-- The `[A-Za-z0-9+/]{200,}={0,2}` — the trailing `={0,2}` is optional, so the
test succeeds exactly when 200 consecutive base64 characters occur. -/
def base64LongBlobAt (_ : Option Char) (cs : List Char) : Bool :=
  (exactlyAt isBase64Char 200 cs).isSome

/-- The `[​-‍﻿⁠]` -/
def zeroWidthAt (_ : Option Char) (cs : List Char) : Bool :=
  match cs with
  | [] => false
  | c :: _ =>
    (0x200b ≤ c.toNat && c.toNat ≤ 0x200d) || c.toNat = 0xfeff ||
      c.toNat = 0x2060

/-- The `(?:\.\.\/\.\.\/|\.\.\\\.\.\\|\.\.%2[Ff])` -/
def pathTraversalAt (_ : Option Char) (cs : List Char) : Bool :=
  litThen "../../".data matchEnd cs ||
  litThen ['.', '.', backslashChar, '.', '.', backslashChar] matchEnd cs ||
  litThen "..%2".data
    (classThen (fun c => c = 'F' || c = 'f') matchEnd) cs

/-! ## The pattern rule catalog -/

structure PatternRule where
  id : String
  /-- The `RegExp.test` on one line, translated to an executable matcher. -/
  test : List Char → Bool
  severity : Severity
  message : String
  fix : Option String := none

def PATTERN_RULES : List PatternRule := [
  { id := "aws-access-key",
    test := testAnywhere awsAccessKeyAt,
    severity := .critical,
    message := "Hardcoded AWS Access Key ID detected",
    fix := some "Remove the key and use environment variables or IAM roles instead." },
  { id := "github-token",
    test := testAnywhere githubTokenAt,
    severity := .critical,
    message := "Hardcoded GitHub personal access token detected",
    fix := some "Remove the token and inject it via a GITHUB_TOKEN environment variable." },
  { id := "private-key-block",
    test := testAnywhere privateKeyBlockAt,
    severity := .critical,
    message := "Private key material embedded in skill",
    fix := some "Never embed private keys; use environment variables or a secret manager." },
  { id := "jwt-token",
    test := testAnywhere jwtTokenAt,
    severity := .high,
    message := "Hardcoded JWT token detected",
    fix := some "Remove the token; JWTs should be dynamically issued per session." },
  { id := "generic-api-key",
    test := testAnywhere genericApiKeyAt,
    severity := .high,
    message := "Potential hardcoded API key detected",
    fix := some "Move secrets to environment variables and reference them with $VAR_NAME." },
  { id := "generic-secret",
    test := testAnywhere genericSecretAt,
    severity := .high,
    message := "Potential hardcoded secret or password detected",
    fix := some "Move credentials to environment variables or a secret manager." },
  { id := "rm-rf",
    test := testAnywhere rmRfAt,
    severity := .critical,
    message := "Destructive recursive file deletion command (rm -rf) detected",
    fix := some "Scope deletion to a known safe subdirectory; never delete home or root paths." },
  { id := "curl-pipe-shell",
    test := testAnywhere curlPipeShellAt,
    severity := .critical,
    message := "Remote code execution via curl-pipe-to-shell pattern detected",
    fix := some "Download scripts to a verified path, inspect them, then execute explicitly." },
  { id := "wget-pipe-shell",
    test := testAnywhere wgetPipeShellAt,
    severity := .critical,
    message := "Remote code execution via wget-pipe-to-shell pattern detected",
    fix := some "Download scripts to a verified path, inspect them, then execute explicitly." },
  { id := "eval-call",
    test := testAnywhere evalCallAt,
    severity := .high,
    message := "eval() call detected — common command injection entry point",
    fix := some "Avoid eval(); use explicit function calls or safer language-level alternatives." },
  { id := "exec-shell-string",
    test := testAnywhere execShellStringAt,
    severity := .high,
    message := "Shell exec with hardcoded interpreter detected",
    fix := some "Use parameterized subprocess calls instead of shell=True or exec() strings." },
  { id := "curl-data-post",
    test := testAnywhere curlDataPostAt,
    severity := .medium,
    message := "Possible data exfiltration via curl POST to external URL",
    fix := some "Verify the target URL is an authorized, internal endpoint." },
  { id := "base64-long-blob",
    test := testAnywhere base64LongBlobAt,
    severity := .medium,
    message := "Long base64-encoded blob detected — possible obfuscated payload",
    fix := some "Replace encoded content with readable plaintext or an external resource reference." },
  { id := "unicode-zero-width",
    test := testAnywhere zeroWidthAt,
    severity := .medium,
    message := "Zero-width or invisible unicode characters detected — potential hidden instruction injection",
    fix := some "Strip all zero-width unicode characters from skill content." },
  { id := "path-traversal",
    test := testAnywhere pathTraversalAt,
    severity := .high,
    message := "Path traversal sequence (../../) detected",
    fix := some "Sanitize path inputs and reject any sequence containing '..'." }
]

/-! ## scanPatterns -/

/-- The `content.split("\n")` on the character list. -/
def splitLines : List Char → List (List Char)
  | [] => [[]]
  | c :: cs =>
    let r := splitLines cs
    if c = newlineChar then [] :: r
    else
      match r with
      | [] => [[c]]
      | l :: ls => (c :: l) :: ls

/-- Index of the first element satisfying `p` (the inner
scan-lines-in-order loop with its `break`). -/
def firstMatchIdx (p : α → Bool) : List α → Option Nat
  | [] => none
  | l :: ls => if p l then some 0 else (firstMatchIdx p ls).map (· + 1)

/-- The finding pushed for rule `r` when line `i` (0-based) is its first
matching line. -/
def renderFinding (r : PatternRule) (filePath : String) (i : Nat) : Finding :=
  { severity := r.severity,
    message := r.message ++ " (" ++ filePath ++ ":" ++ Nat.repr (i + 1) ++ ")",
    fix := r.fix,
    agent := some "PatternScanner",
    compliance := none }

/-- The `scanPatterns` from src/core/patternScanner.ts: split into lines; for
each rule in catalog order record only the first matching line. -/
def scanPatterns (content : String) (filePath : String := "SKILL.md") :
    List Finding :=
  let lines := splitLines content.data
  PATTERN_RULES.filterMap
    (fun r => (firstMatchIdx r.test lines).map (renderFinding r filePath))

/-! ## Compliance Mapper (src/core/complianceMapper.ts) -/

def OWASP_BASE : String := "https://genai.owasp.org/llm-top-10/"

def ATLAS_BASE : String := "https://atlas.mitre.org/techniques/"

structure MappingRule where
  /-- When set, the finding agent must match (`RegExp.test`, translated). -/
  requireAgent : Option (String → Bool) := none
  /-- When set, at least one pattern must match the finding message. -/
  messagePatterns : Option (List (String → Bool)) := none
  refs : List ComplianceRef

def MAPPING_RULES : List MappingRule := [
  -- LLM01: Prompt Injection — `/zero-width|invisible unicode|hidden instruction/i`
  { messagePatterns := some [fun m =>
      containsCI "zero-width" m || containsCI "invisible unicode" m ||
        containsCI "hidden instruction" m],
    refs := [
      { framework := "OWASP LLM Top 10", id := "LLM01",
        name := "Prompt Injection",
        url := OWASP_BASE ++ "llm01-prompt-injection/" },
      { framework := "MITRE ATLAS", id := "AML.T0051",
        name := "LLM Prompt Injection",
        url := ATLAS_BASE ++ "AML.T0051/" }] },
  -- LLM02: Sensitive Information Disclosure
  { messagePatterns := some [fun m =>
      containsCI "aws access key" m || containsSeqCI "github" "token" m ||
        containsCI "private key" m || containsCI "jwt token" m ||
        containsCI "api key" m || containsSeqCI "hardcoded" "secret" m ||
        containsSeqCI "hardcoded" "password" m ||
        containsCI "potential hardcoded" m],
    refs := [
      { framework := "OWASP LLM Top 10", id := "LLM02",
        name := "Sensitive Information Disclosure",
        url := OWASP_BASE ++ "llm02-sensitive-information-disclosure/" }] },
  -- LLM03: Supply Chain
  { messagePatterns := some [fun m =>
      containsCI "curl-pipe-to-shell" m || containsCI "wget-pipe-to-shell" m ||
        containsCI "remote code execution" m],
    refs := [
      { framework := "OWASP LLM Top 10", id := "LLM03",
        name := "Supply Chain",
        url := OWASP_BASE ++ "llm03-supply-chain/" },
      { framework := "MITRE ATLAS", id := "AML.T0010",
        name := "ML Supply Chain Compromise",
        url := ATLAS_BASE ++ "AML.T0010/" }] },
  -- LLM04: Data and Model Poisoning
  { messagePatterns := some [fun m =>
      containsSeqCI "base64" "blob" m || containsCI "obfuscat" m ||
        containsCI "encoded blob" m],
    refs := [
      { framework := "OWASP LLM Top 10", id := "LLM04",
        name := "Data and Model Poisoning",
        url := OWASP_BASE ++ "llm04-data-model-poisoning/" },
      { framework := "MITRE ATLAS", id := "AML.T0020",
        name := "Poison Training Data",
        url := ATLAS_BASE ++ "AML.T0020/" }] },
  -- LLM06: Excessive Agency
  { messagePatterns := some [fun m =>
      containsCI "rm -rf" m || containsSeqCI "destructive" "file deletion" m ||
        containsCI "eval()" m || containsCI "command injection" m ||
        containsSeqCI "exec" "shell" m || containsCI "path traversal" m ||
        containsCI "data exfiltrat" m],
    refs := [
      { framework := "OWASP LLM Top 10", id := "LLM06",
        name := "Excessive Agency",
        url := OWASP_BASE ++ "llm06-excessive-agency/" },
      { framework := "MITRE ATLAS", id := "AML.T0048",
        name := "Backdoor ML Model",
        url := ATLAS_BASE ++ "AML.T0048/" }] },
  -- agentskills.io Spec Compliance — `requireAgent: /specvalidator/i`
  { requireAgent := some (fun a => containsCI "specvalidator" a),
    refs := [
      { framework := "Agent Skills Spec", id := "SPEC-001",
        name := "agentskills.io Compliance",
        url := "https://agentskills.io" }] }
]

/-- Does `rule` fire for finding `f`?  `requireAgent` is tested against
`finding.agent ?? ""`; `messagePatterns` requires at least one match. -/
def ruleFires (rule : MappingRule) (f : Finding) : Bool :=
  let agentOk :=
    match rule.requireAgent with
    | none => true
    | some t => t (f.agent.getD "")
  let messageOk :=
    match rule.messagePatterns with
    | none => true
    | some ps => ps.any (fun p => p f.message)
  agentOk && messageOk

/-- Push the refs of one firing rule, skipping any ref whose id is already
present (`if (!refs.some((r) => r.id === ref.id)) refs.push(ref)`). -/
def pushRefs (acc : List ComplianceRef) (refs : List ComplianceRef) :
    List ComplianceRef :=
  refs.foldl
    (fun acc ref => if acc.any (fun r => r.id = ref.id) then acc else acc ++ [ref])
    acc

/-- The de-duplicated compliance refs collected for one finding. -/
def complianceRefsFor (f : Finding) : List ComplianceRef :=
  MAPPING_RULES.foldl
    (fun acc rule => if ruleFires rule f then pushRefs acc rule.refs else acc)
    []

/-- The `mapCompliance` from src/core/complianceMapper.ts. -/
def mapCompliance (findings : List Finding) : List Finding :=
  findings.map (fun f =>
    let refs := complianceRefsFor f
    if refs.length > 0 then { f with compliance := some refs } else f)

/-! ## Orchestration and Scoring Engine (src/workflows/orchestrator.ts)

The engine is asynchronous in the source: the security and compat checks
run concurrently, each raced against a timeout, and may throw.  The
embedding makes each check's observed behaviour an explicit value
(`SecurityBehaviour` / `CompatBehaviour`, each possibly wrapped in a
timeout via `Timed`), so the engine becomes a pure function of the
artifact data and those behaviours. -/

def SEVERITY_DEDUCTIONS : Severity → Nat
  | .critical => 50
  | .high => 25
  | .medium => 10
  | .low => 2

inductive AgentCategory
  | security
  | spec
  | compat
deriving DecidableEq, Repr

/-- Per-category deduction amounts (also reused for `AGENT_CAPS`). -/
structure ScoreBreakdown where
  security : Nat
  spec : Nat
  compat : Nat
deriving DecidableEq, Repr

/-- Maximum points each agent category can deduct from the total score. -/
def AGENT_CAPS : ScoreBreakdown := { security := 65, spec := 25, compat := 15 }

/-- The `classifyAgent`: bucket an agent name; unknown (or missing) agents
fall into the security bucket. -/
def classifyAgent (agent : Option String) : AgentCategory :=
  match agent with
  | none => .security
  | some a =>
    if a = "" then .security
    else
      let l := lowerAll a.data
      if containsChars "security".data l || headMatch "security".data l then
        .security
      else if l = "specvalidator".data then .spec
      else if l = "compatagent".data then .compat
      else .security

/-- Raw per-category deduction accumulation
(`raw[cat] += SEVERITY_DEDUCTIONS[f.severity] ?? 0`). -/
def rawDeductions (findings : List Finding) : ScoreBreakdown :=
  findings.foldl
    (fun r f =>
      match classifyAgent f.agent with
      | .security => { r with security := r.security + SEVERITY_DEDUCTIONS f.severity }
      | .spec => { r with spec := r.spec + SEVERITY_DEDUCTIONS f.severity }
      | .compat => { r with compat := r.compat + SEVERITY_DEDUCTIONS f.severity })
    { security := 0, spec := 0, compat := 0 }

/-- Per-category caps applied to the raw deductions. -/
def cappedDeductions (findings : List Finding) : ScoreBreakdown :=
  let raw := rawDeductions findings
  { security := min raw.security AGENT_CAPS.security,
    spec := min raw.spec AGENT_CAPS.spec,
    compat := min raw.compat AGENT_CAPS.compat }

/-- The `optimisticScore = Math.max(0, 100 - totalDeduction)`. -/
def optimisticScore (findings : List Finding) : Int :=
  let capped := cappedDeductions findings
  max 0 (100 - ((capped.security + capped.spec + capped.compat : Nat) : Int))

/-- The cap headroom a single failed step is assumed to consume
(the if/else chain of the pessimistic loop).  A step name naming no
category contributes nothing. -/
def stepExtra (capped : ScoreBreakdown) (step : String) : Nat :=
  let s := lowerAll step.data
  if containsChars "security".data s then AGENT_CAPS.security - capped.security
  else if containsChars "compat".data s then AGENT_CAPS.compat - capped.compat
  else if containsChars "spec".data s then AGENT_CAPS.spec - capped.spec
  else 0

/-- The `pessimisticExtra`: sum of cap headroom over the failed steps. -/
def pessimisticExtra (capped : ScoreBreakdown) (failedSteps : List String) : Nat :=
  failedSteps.foldl (fun acc step => acc + stepExtra capped step) 0

structure ScoreRange where
  min : Int
  max : Int
deriving DecidableEq, Repr

structure ScoreResult where
  score : Int
  scoreRange : Option ScoreRange
  scoreBreakdown : ScoreBreakdown
deriving DecidableEq, Repr

/-- The `calculateNormalizedScore` from src/workflows/orchestrator.ts. -/
def calculateNormalizedScore (findings : List Finding)
    (failedSteps : List String) : ScoreResult :=
  let capped := cappedDeductions findings
  let os := optimisticScore findings
  if failedSteps.isEmpty then
    { score := os, scoreRange := none, scoreBreakdown := capped }
  else
    let ps := max 0 (os - (pessimisticExtra capped failedSteps : Int))
    { score := ps, scoreRange := some { min := ps, max := os },
      scoreBreakdown := capped }

/-! ### Step results and checker behaviours -/

/-- The `StepResult` (`failed?: boolean` modelled with default `false`). -/
structure StepResult where
  findings : List Finding
  failed : Bool := false
  error : Option String := none
deriving DecidableEq, Repr

/-- The output slot of one inner security-workflow step
(`{ findings?, failed?, error? }`). -/
structure StepOutput where
  findings : Option (List Finding) := none
  failed : Bool := false
  error : Option String := none
deriving DecidableEq, Repr

/-- Observed behaviour of the security check's inner Mastra workflow run:
either the run threw / rejected, or it settled with named step outputs
(an absent `output` is `none`). -/
inductive SecurityBehaviour
  | threw (msg : String)
  | ran (steps : List (String × Option StepOutput))
deriving DecidableEq, Repr

/-- Observed behaviour of the compat agent call. -/
inductive CompatBehaviour
  | threw (msg : String)
  | ok (findings : List Finding)
deriving DecidableEq, Repr

/-- Whether a check's promise settled before the per-step timeout. -/
inductive Timed (α : Type)
  | inTime (a : α)
  | timedOut
deriving DecidableEq, Repr

def timedMap (f : α → β) : Timed α → Timed β
  | .inTime a => .inTime (f a)
  | .timedOut => .timedOut

/-- The `stepName.charAt(0).toUpperCase() + stepName.slice(1)`. -/
def capitalizeStep (s : String) : String :=
  match s.data with
  | [] => ""
  | c :: cs => String.mk (c.toUpper :: cs)

/-- JS `f.agent || deflt` (both `undefined` and `""` are falsy). -/
def agentOrDefault (a : Option String) (deflt : String) : String :=
  match a with
  | none => deflt
  | some s => if s = "" then deflt else s

/-- The `Array.join("; ")`. -/
def joinSemicolon : List String → String
  | [] => ""
  | [s] => s
  | s :: rest => s ++ "; " ++ joinSemicolon rest

/-- The accumulation loop of `runSecurityCheck` over the inner workflow's
step outputs: collect findings (tagging untagged ones with
`Security<StepName>`), failed step names, and error strings. -/
def collectSecuritySteps :
    List (String × Option StepOutput) →
      List Finding × List String × List String
  | [] => ([], [], [])
  | (stepName, out) :: rest =>
    let (fs, fails, errs) := collectSecuritySteps rest
    let here :=
      match out with
      | none => ([], [], [])
      | some o =>
        let fsHere :=
          match o.findings with
          | none => []
          | some l =>
            l.map (fun f : Finding =>
              let deflt := "Security" ++ capitalizeStep stepName
              { f with agent := some (agentOrDefault f.agent deflt) })
        let failsHere := if o.failed then ["security." ++ stepName] else []
        -- `if (stepResult.output.error)` — the empty string is falsy
        let errsHere :=
          if o.failed then
            match o.error with
            | some e =>
              if e = "" then [] else ["security." ++ stepName ++ ": " ++ e]
            | none => []
          else []
        (fsHere, failsHere, errsHere)
    (here.1 ++ fs, here.2.1 ++ fails, here.2.2 ++ errs)

/-- The `runSecurityCheck`: run the inner security workflow, aggregate its
step outputs; any exception is caught and converted to a failed result. -/
def runSecurityCheck (b : SecurityBehaviour) : StepResult :=
  match b with
  | .threw msg => { findings := [], failed := true, error := some msg }
  | .ran steps =>
    let (allFindings, failedNames, errors) := collectSecuritySteps steps
    if failedNames.isEmpty then
      { findings := allFindings }
    else
      { findings := allFindings, failed := true,
        error := some (joinSemicolon errors) }

/-- The `runCompatCheck`: tag findings with `CompatAgent`; any exception is
caught and converted to a failed result. -/
def runCompatCheck (b : CompatBehaviour) : StepResult :=
  match b with
  | .threw msg => { findings := [], failed := true, error := some msg }
  | .ok fs => { findings := fs.map (fun f => { f with agent := some "CompatAgent" }) }

/-- The step result produced when the timeout promise wins the race. -/
def timeoutStepResult (timeoutMs : Nat) (stepName : String) : StepResult :=
  { findings := [], failed := true,
    error := some ("Step " ++ aposStr ++ stepName ++ aposStr ++
      " timed out after " ++ Nat.repr timeoutMs ++ "ms") }

/-- The `runWithTimeout`: `Promise.race` between the check and the timeout. -/
def runWithTimeout (r : Timed StepResult) (timeoutMs : Nat)
    (stepName : String) : StepResult :=
  match r with
  | .inTime res => res
  | .timedOut => timeoutStepResult timeoutMs stepName

/-! ### The report and the orchestrator -/

/-- The `InspectionReport` (the `timestamp` wall-clock field is not
modelled). -/
structure InspectionReport where
  skillName : String
  overallScore : Int
  scoreRange : Option ScoreRange
  scoreBreakdown : ScoreBreakdown
  findings : List Finding
  summary : String
  incomplete : Bool
  failedSteps : Option (List String)
  errors : Option (List String)
deriving DecidableEq, Repr

/-- The error entry pushed for a failed step (`if (result.error)` — the
empty string is falsy and pushes nothing). -/
def stepErrorEntry (stepName : String) (e : Option String) : List String :=
  match e with
  | none => []
  | some s => if s = "" then [] else [stepName ++ ": " ++ s]

/-- Step 1 of `runInspectorWorkflow`: the synchronous spec validation
result, each finding's agent defaulted via `f.agent ?? "SpecValidator"`.
`specRaw` is the value returned by `validateSpec(skill)`
(src/core/validators.ts). -/
def specTagged (specRaw : List Finding) : List Finding :=
  specRaw.map (fun f => { f with agent := some (f.agent.getD "SpecValidator") })

/-- The `securityResult` local of `runInspectorWorkflow`. -/
def securityStepResult (sec : Timed SecurityBehaviour) (timeoutMs : Nat) :
    StepResult :=
  runWithTimeout (timedMap runSecurityCheck sec) timeoutMs "security"

/-- The `compatResult` local of `runInspectorWorkflow`. -/
def compatStepResult (comp : Timed CompatBehaviour) (timeoutMs : Nat) :
    StepResult :=
  runWithTimeout (timedMap runCompatCheck comp) timeoutMs "compatibility"

/-- The `allFindings` local of `runInspectorWorkflow`: spec findings, then
security findings, then compat findings. -/
def mergedFindings (specRaw : List Finding) (sec : Timed SecurityBehaviour)
    (comp : Timed CompatBehaviour) (timeoutMs : Nat) : List Finding :=
  specTagged specRaw ++ (securityStepResult sec timeoutMs).findings ++
    (compatStepResult comp timeoutMs).findings

/-- The `failedSteps` local of `runInspectorWorkflow`. -/
def engineFailedSteps (sec : Timed SecurityBehaviour)
    (comp : Timed CompatBehaviour) (timeoutMs : Nat) : List String :=
  (if (securityStepResult sec timeoutMs).failed then ["security"] else []) ++
    (if (compatStepResult comp timeoutMs).failed then ["compatibility"] else [])

/-- The `errors` local of `runInspectorWorkflow`. -/
def engineErrors (sec : Timed SecurityBehaviour) (comp : Timed CompatBehaviour)
    (timeoutMs : Nat) : List String :=
  (if (securityStepResult sec timeoutMs).failed then
    stepErrorEntry "security" (securityStepResult sec timeoutMs).error
   else []) ++
    (if (compatStepResult comp timeoutMs).failed then
      stepErrorEntry "compatibility" (compatStepResult comp timeoutMs).error
     else [])

/-- The `runInspectorWorkflow` from src/workflows/orchestrator.ts.

`specRaw` is the value returned by the synchronous `validateSpec(skill)`
call; `sec` and `comp` are the observed behaviours of the two concurrent
checks. -/
def runInspectorWorkflow (skillName : String) (specRaw : List Finding)
    (sec : Timed SecurityBehaviour) (comp : Timed CompatBehaviour)
    (timeoutMs : Nat := 120000) : InspectionReport :=
  let allFindings := mergedFindings specRaw sec comp timeoutMs
  let failedSteps := engineFailedSteps sec comp timeoutMs
  let errors := engineErrors sec comp timeoutMs
  let incomplete := !failedSteps.isEmpty
  let res := calculateNormalizedScore allFindings failedSteps
  let summaryText :=
    if incomplete then
      "Inspection incomplete: " ++ Nat.repr failedSteps.length ++
        " step(s) failed. Score shown is pessimistic lower bound."
    else if allFindings.isEmpty then
      "No issues found. Skill looks safe and compliant."
    else
      "Found " ++ Nat.repr allFindings.length ++
        " potential issue(s) across multiple agents."
  { skillName := skillName,
    overallScore := res.score,
    scoreRange := res.scoreRange,
    scoreBreakdown := res.scoreBreakdown,
    findings := allFindings,
    summary := summaryText,
    incomplete := incomplete,
    failedSteps := if incomplete then some failedSteps else none,
    errors := if incomplete && !errors.isEmpty then some errors else none }

/-! # Theorems

## Compliance-mapper lemmas -/

theorem ruleFires_set_compliance (rule : MappingRule) (f : Finding)
    (x : Option (List ComplianceRef)) :
    ruleFires rule { f with compliance := x } = ruleFires rule f := rfl

theorem complianceRefsFor_set_compliance (f : Finding)
    (x : Option (List ComplianceRef)) :
    complianceRefsFor { f with compliance := x } = complianceRefsFor f := rfl

theorem pushRefs_nodup :
    ∀ (refs acc : List ComplianceRef),
      (acc.map ComplianceRef.id).Nodup →
        ((pushRefs acc refs).map ComplianceRef.id).Nodup := by
  intro refs
  induction refs with
  | nil => intro acc h; simpa [pushRefs] using h
  | cons r rs ih =>
    intro acc h
    have hstep : pushRefs acc (r :: rs) =
        pushRefs (if acc.any (fun x => x.id = r.id) then acc else acc ++ [r]) rs := by
      simp [pushRefs]
    rw [hstep]
    apply ih
    by_cases hmem : acc.any (fun x => x.id = r.id)
    · simpa [hmem] using h
    · have hnot : r.id ∉ acc.map ComplianceRef.id := by
        simp only [List.any_eq_true, decide_eq_true_eq] at hmem
        simp only [List.mem_map]
        rintro ⟨x, hx, hid⟩
        exact hmem ⟨x, hx, hid⟩
      simp [hmem, List.nodup_append, h, hnot]

theorem complianceRefsFor_nodup (f : Finding) :
    ((complianceRefsFor f).map ComplianceRef.id).Nodup := by
  have aux : ∀ (rules : List MappingRule) (acc : List ComplianceRef),
      (acc.map ComplianceRef.id).Nodup →
        ((rules.foldl
          (fun acc rule => if ruleFires rule f then pushRefs acc rule.refs else acc)
          acc).map ComplianceRef.id).Nodup := by
    intro rules
    induction rules with
    | nil => intro acc h; simpa using h
    | cons rl rls ih =>
      intro acc h
      simp only [List.foldl_cons]
      by_cases hf : ruleFires rl f
      · simp only [hf, if_true]
        exact ih _ (pushRefs_nodup _ _ h)
      · simp only [hf, if_false]
        exact ih _ h
  simpa [complianceRefsFor] using aux MAPPING_RULES [] (by simp)

theorem complianceRefsFor_eq_nil (f : Finding)
    (h : ∀ rule ∈ MAPPING_RULES, ruleFires rule f = false) :
    complianceRefsFor f = [] := by
  have aux : ∀ (rules : List MappingRule) (acc : List ComplianceRef),
      (∀ rule ∈ rules, ruleFires rule f = false) →
        rules.foldl
          (fun acc rule => if ruleFires rule f then pushRefs acc rule.refs else acc)
          acc = acc := by
    intro rules
    induction rules with
    | nil => intro acc _; rfl
    | cons rl rls ih =>
      intro acc hall
      simp only [List.foldl_cons, hall rl (by simp), if_false]
      exact ih _ (fun rule hr => hall rule (by simp [hr]))
  simpa [complianceRefsFor] using aux MAPPING_RULES [] h

/-! ## Claim C8 -/

/-- Claim C8: `mapCompliance` is idempotent — applying it twice yields the
same finding list (hence the same `complianceRefs`) as applying it once:
the second pass recomputes the same refs from the unchanged agent and
message and overwrites the attached field with an identical value. -/
theorem c8_mapCompliance_idempotent (findings : List Finding) :
    mapCompliance (mapCompliance findings) = mapCompliance findings := by
  unfold mapCompliance
  rw [List.map_map]
  apply List.map_congr_left
  intro f _
  simp only [Function.comp_apply]
  by_cases h : 0 < (complianceRefsFor f).length
  · simp only [if_pos h, complianceRefsFor_set_compliance, gt_iff_lt]
  · simp only [if_neg h, gt_iff_lt]

/-! ## Claim C9 -/

/-- Claim C9: in the output of `mapCompliance` (on findings that do not
carry pre-attached refs — refs are only ever set by the mapper), no
finding's attached compliance-reference list contains two references with
the same id, even when several catalog rules fire for the finding. -/
theorem c9_refs_deduplicated (findings : List Finding)
    (hclean : ∀ f ∈ findings, f.compliance = none) :
    ∀ f ∈ mapCompliance findings, ∀ refs, f.compliance = some refs →
      (refs.map ComplianceRef.id).Nodup := by
  intro f hf refs hrefs
  unfold mapCompliance at hf
  obtain ⟨g, hg, hgf⟩ := List.mem_map.mp hf
  by_cases h : 0 < (complianceRefsFor g).length
  · rw [if_pos h] at hgf
    have hcomp : f.compliance = some (complianceRefsFor g) := by
      rw [← hgf]
    rw [hcomp] at hrefs
    obtain rfl : complianceRefsFor g = refs := Option.some.inj hrefs
    exact complianceRefsFor_nodup g
  · rw [if_neg h] at hgf
    rw [← hgf] at hrefs
    rw [hclean g hg] at hrefs
    exact absurd hrefs (by simp)

/-- A finding whose message fires the LLM06 rule through two of its
message patterns at once (`rm -rf` and `eval()`). -/
def c9Input : List Finding :=
  [{ severity := .critical,
     message := "Destructive recursive file deletion command (rm -rf) detected — eval() also present",
     agent := some "PatternScanner" }]

theorem c9_witness :
    (((MAPPING_RULES.get ⟨4, by decide⟩).refs).map ComplianceRef.id).Nodup :=
  c9_refs_deduplicated c9Input (by decide)
    { severity := .critical,
      message := "Destructive recursive file deletion command (rm -rf) detected — eval() also present",
      agent := some "PatternScanner",
      compliance := some (MAPPING_RULES.get ⟨4, by decide⟩).refs }
    (by decide) (MAPPING_RULES.get ⟨4, by decide⟩).refs rfl

/-! ## Claim C10 -/

/-- Claim C10: `mapCompliance` maps each input finding to exactly one
output finding at the same position (same length and order); severity,
message, fix and agent are unchanged; and a finding for which no mapping
rule fires is returned as the identical unchanged value. -/
theorem c10_frame (findings : List Finding) :
    (mapCompliance findings).length = findings.length ∧
    ∀ i (h1 : i < (mapCompliance findings).length) (h2 : i < findings.length),
      ((mapCompliance findings).get ⟨i, h1⟩).severity =
          (findings.get ⟨i, h2⟩).severity ∧
      ((mapCompliance findings).get ⟨i, h1⟩).message =
          (findings.get ⟨i, h2⟩).message ∧
      ((mapCompliance findings).get ⟨i, h1⟩).fix = (findings.get ⟨i, h2⟩).fix ∧
      ((mapCompliance findings).get ⟨i, h1⟩).agent =
          (findings.get ⟨i, h2⟩).agent ∧
      ((∀ rule ∈ MAPPING_RULES, ruleFires rule (findings.get ⟨i, h2⟩) = false) →
        (mapCompliance findings).get ⟨i, h1⟩ = findings.get ⟨i, h2⟩) := by
  refine ⟨by simp [mapCompliance], ?_⟩
  intro i h1 h2
  have key : (mapCompliance findings).get ⟨i, h1⟩ =
      (let refs := complianceRefsFor (findings.get ⟨i, h2⟩)
       if refs.length > 0 then
         { findings.get ⟨i, h2⟩ with compliance := some refs }
       else findings.get ⟨i, h2⟩) := by
    simp [mapCompliance, List.get_eq_getElem, List.getElem_map]
  rw [key]
  by_cases h : 0 < (complianceRefsFor (findings.get ⟨i, h2⟩)).length
  · simp only [gt_iff_lt, if_pos h]
    refine ⟨trivial, trivial, trivial, trivial, fun hall => ?_⟩
    rw [complianceRefsFor_eq_nil _ hall] at h
    exact absurd h (by simp)
  · simp only [gt_iff_lt, if_neg h]
    exact ⟨trivial, trivial, trivial, trivial, fun _ => trivial⟩

/-- A finding matching no compliance rule. -/
def c10Input : List Finding :=
  [{ severity := .low, message := "Some generic low-risk observation",
     agent := some "X" }]

theorem c10_witness :
    (mapCompliance c10Input).length = c10Input.length ∧
    (mapCompliance c10Input).get ⟨0, by decide⟩ =
      c10Input.get ⟨0, by decide⟩ :=
  ⟨(c10_frame c10Input).1,
    ((c10_frame c10Input).2 0 (by decide) (by decide)).2.2.2.2 (by decide)⟩

/-! ## Scoring lemmas -/

theorem optimisticScore_nonneg (findings : List Finding) :
    0 ≤ optimisticScore findings :=
  le_max_left 0 _

theorem optimisticScore_le_100 (findings : List Finding) :
    optimisticScore findings ≤ 100 := by
  unfold optimisticScore
  exact max_le (by norm_num) (sub_le_self _ (by positivity))

/-- Report-level projections of `runInspectorWorkflow` (the definition is
a record built from the named engine components). -/
theorem runInspectorWorkflow_eq (skillName : String) (specRaw : List Finding)
    (sec : Timed SecurityBehaviour) (comp : Timed CompatBehaviour)
    (timeoutMs : Nat) :
    (runInspectorWorkflow skillName specRaw sec comp timeoutMs).overallScore =
        (calculateNormalizedScore (mergedFindings specRaw sec comp timeoutMs)
          (engineFailedSteps sec comp timeoutMs)).score ∧
      (runInspectorWorkflow skillName specRaw sec comp timeoutMs).scoreRange =
        (calculateNormalizedScore (mergedFindings specRaw sec comp timeoutMs)
          (engineFailedSteps sec comp timeoutMs)).scoreRange ∧
      (runInspectorWorkflow skillName specRaw sec comp timeoutMs).findings =
        mergedFindings specRaw sec comp timeoutMs ∧
      (runInspectorWorkflow skillName specRaw sec comp timeoutMs).incomplete =
        !(engineFailedSteps sec comp timeoutMs).isEmpty ∧
      (runInspectorWorkflow skillName specRaw sec comp timeoutMs).failedSteps =
        (if !(engineFailedSteps sec comp timeoutMs).isEmpty then
          some (engineFailedSteps sec comp timeoutMs) else none) ∧
      (runInspectorWorkflow skillName specRaw sec comp timeoutMs).errors =
        (if !(engineFailedSteps sec comp timeoutMs).isEmpty &&
            !(engineErrors sec comp timeoutMs).isEmpty then
          some (engineErrors sec comp timeoutMs) else none) :=
  ⟨rfl, rfl, rfl, rfl, rfl, rfl⟩

/-- Behaviour of `calculateNormalizedScore` needed by the report
invariants. -/
theorem calculateNormalizedScore_spec (findings : List Finding)
    (failedSteps : List String) :
    0 ≤ (calculateNormalizedScore findings failedSteps).score ∧
    (calculateNormalizedScore findings failedSteps).score ≤ 100 ∧
    ((calculateNormalizedScore findings failedSteps).scoreRange.isSome = true ↔
      failedSteps ≠ []) ∧
    ∀ rg, (calculateNormalizedScore findings failedSteps).scoreRange = some rg →
      rg.min = (calculateNormalizedScore findings failedSteps).score ∧
      rg.max = optimisticScore findings ∧
      (calculateNormalizedScore findings failedSteps).score ≤ rg.max := by
  unfold calculateNormalizedScore
  by_cases hfe : failedSteps.isEmpty
  · have hnil : failedSteps = [] := List.isEmpty_iff.mp hfe
    simp only [hfe, if_true]
    refine ⟨optimisticScore_nonneg findings, optimisticScore_le_100 findings,
      ?_, ?_⟩
    · simp [hnil]
    · intro rg h
      exact absurd h (by simp)
  · have hne : failedSteps ≠ [] := by
      intro h
      rw [h] at hfe
      exact hfe rfl
    simp only [hfe, Bool.false_eq_true, if_false]
    have hple : max 0 (optimisticScore findings -
        (pessimisticExtra (cappedDeductions findings) failedSteps : Int)) ≤
          optimisticScore findings :=
      max_le (optimisticScore_nonneg findings) (sub_le_self _ (by positivity))
    refine ⟨le_max_left 0 _, le_trans hple (optimisticScore_le_100 findings),
      by simp [hne], ?_⟩
    intro rg h
    obtain rfl : ScoreRange.mk
        (max 0 (optimisticScore findings -
          (pessimisticExtra (cappedDeductions findings) failedSteps : Int)))
        (optimisticScore findings) = rg := Option.some.inj h
    exact ⟨rfl, rfl, hple⟩

/-! ## Claim C2 -/

/-- Claim C2: every report returned by the engine satisfies
`0 ≤ score ≤ 100`; `scoreRange` is present exactly when the run is
incomplete (some check failed or timed out); and when present,
`scoreRange.min ≤ score ≤ scoreRange.max` with `score = scoreRange.min`. -/
theorem c2_report_invariants (skillName : String) (specRaw : List Finding)
    (sec : Timed SecurityBehaviour) (comp : Timed CompatBehaviour)
    (timeoutMs : Nat) :
    0 ≤ (runInspectorWorkflow skillName specRaw sec comp timeoutMs).overallScore ∧
    (runInspectorWorkflow skillName specRaw sec comp timeoutMs).overallScore ≤ 100 ∧
    ((runInspectorWorkflow skillName specRaw sec comp timeoutMs).scoreRange.isSome
        = true ↔
      (runInspectorWorkflow skillName specRaw sec comp timeoutMs).incomplete
        = true) ∧
    ∀ rg, (runInspectorWorkflow skillName specRaw sec comp timeoutMs).scoreRange
        = some rg →
      rg.min ≤
          (runInspectorWorkflow skillName specRaw sec comp timeoutMs).overallScore ∧
      (runInspectorWorkflow skillName specRaw sec comp timeoutMs).overallScore ≤
          rg.max ∧
      (runInspectorWorkflow skillName specRaw sec comp timeoutMs).overallScore =
          rg.min := by
  obtain ⟨hscore, hrange, -, hinc, -, -⟩ :=
    runInspectorWorkflow_eq skillName specRaw sec comp timeoutMs
  obtain ⟨h0, h100, hiff, hrg⟩ :=
    calculateNormalizedScore_spec (mergedFindings specRaw sec comp timeoutMs)
      (engineFailedSteps sec comp timeoutMs)
  rw [hscore, hrange, hinc]
  refine ⟨h0, h100, ?_, ?_⟩
  · rw [hiff]
    constructor
    · intro h
      simpa [List.isEmpty_iff] using h
    · intro h
      simpa [List.isEmpty_iff] using h
  · intro rg h
    obtain ⟨hmin, -, hle⟩ := hrg rg h
    exact ⟨le_of_eq hmin, hle.trans_eq rfl, hmin.symm⟩

theorem c2_witness :
    (0 : Int) ≤ 85 ∧ (85 : Int) ≤ 100 ∧
    ((runInspectorWorkflow "s" [] (.inTime (.ran [])) .timedOut 1000).scoreRange.isSome
        = true ↔
      (runInspectorWorkflow "s" [] (.inTime (.ran [])) .timedOut 1000).incomplete
        = true) ∧
    ((85 : Int) ≤ 85 ∧ (85 : Int) ≤ 100 ∧ (85 : Int) = 85) := by
  obtain ⟨h0, h100, hiff, hrg⟩ :=
    c2_report_invariants "s" [] (.inTime (.ran [])) .timedOut 1000
  have hsc : (runInspectorWorkflow "s" [] (.inTime (.ran [])) .timedOut
      1000).overallScore = 85 := by decide
  have hr : (runInspectorWorkflow "s" [] (.inTime (.ran [])) .timedOut
      1000).scoreRange = some { min := 85, max := 100 } := by decide
  obtain ⟨ha, hb, hc⟩ := hrg { min := 85, max := 100 } hr
  rw [hsc] at ha hb hc
  exact ⟨by norm_num, by norm_num, hiff, ha, hb, hc⟩

/-! ## Claim C5 -/

/-- The `foldl` accumulation of the pessimistic loop is the sum over the
failed steps. -/
theorem pessimisticExtra_eq_sum (capped : ScoreBreakdown)
    (failedSteps : List String) :
    pessimisticExtra capped failedSteps =
      (failedSteps.map (stepExtra capped)).sum := by
  have aux : ∀ (l : List String) (a : Nat),
      l.foldl (fun acc step => acc + stepExtra capped step) a =
        a + (l.map (stepExtra capped)).sum := by
    intro l
    induction l with
    | nil => intro a; simp
    | cons s ss ih =>
      intro a
      simp only [List.foldl_cons, List.map_cons, List.sum_cons, ih]
      omega
  simpa [pessimisticExtra] using aux failedSteps 0

/-- Claim C5: whenever at least one check failed or timed out, the score is
`max 0 (optimisticScore − pessimisticExtra)` where `pessimisticExtra` is
the sum over failed checks of that check's category cap minus the capped
deduction already applied to that category (`stepExtra`), and
`scoreRange = {min := pessimisticScore, max := optimisticScore}`.  In
particular with no findings and exactly one timed-out/failed check the
range is `{min := 100 − cap, max := 100}` (compat cap 15, security cap
65). -/
theorem c5_pessimistic_scoring (findings : List Finding)
    (failedSteps : List String) (h : failedSteps ≠ []) :
    (calculateNormalizedScore findings failedSteps).score =
      max 0 (optimisticScore findings -
        ((failedSteps.map (stepExtra (cappedDeductions findings))).sum : Int)) ∧
    (calculateNormalizedScore findings failedSteps).scoreRange =
      some { min := (calculateNormalizedScore findings failedSteps).score,
             max := optimisticScore findings } ∧
    calculateNormalizedScore [] ["compatibility"] =
      { score := 85, scoreRange := some { min := 85, max := 100 },
        scoreBreakdown := { security := 0, spec := 0, compat := 0 } } ∧
    (calculateNormalizedScore [] ["security"]).scoreRange =
      some { min := 35, max := 100 } := by
  have hfe : failedSteps.isEmpty = false := by
    cases failedSteps with
    | nil => exact absurd rfl h
    | cons a l => rfl
  refine ⟨?_, ?_, by decide, by decide⟩
  · unfold calculateNormalizedScore
    simp only [hfe, Bool.false_eq_true, if_false]
    rw [pessimisticExtra_eq_sum]
  · unfold calculateNormalizedScore
    simp only [hfe, Bool.false_eq_true, if_false]

theorem c5_witness :
    (calculateNormalizedScore [] ["compatibility"]).score =
      max 0 (optimisticScore [] -
        (((["compatibility"] : List String).map
          (stepExtra (cappedDeductions []))).sum : Int)) ∧
    calculateNormalizedScore [] ["compatibility"] =
      { score := 85, scoreRange := some { min := 85, max := 100 },
        scoreBreakdown := { security := 0, spec := 0, compat := 0 } } :=
  ⟨(c5_pessimistic_scoring [] ["compatibility"] (by decide)).1,
    (c5_pessimistic_scoring [] ["compatibility"] (by decide)).2.2.1⟩

/-! ## Claim C4 -/

theorem strAppend_ne_empty_right (a b : String) (h : b ≠ "") : a ++ b ≠ "" := by
  intro hab
  apply h
  have hdata : a.data ++ b.data = [] := by
    rw [← String.data_append, hab]
  exact String.ext (List.append_eq_nil.mp hdata).2

/-- Counterexample to claim C4 as stated: a security check that rejects
with an **empty** error message is caught and recorded in `failedSteps`,
but because the empty string is falsy no error entry is pushed, so the
report's `errors` field is absent rather than containing the check's
error message. -/
theorem c4_counterexample :
    (runInspectorWorkflow "s" [] (.inTime (.threw "")) (.inTime (.ok []))
      1000).incomplete = true ∧
    (runInspectorWorkflow "s" [] (.inTime (.threw "")) (.inTime (.ok []))
      1000).failedSteps = some ["security"] ∧
    (runInspectorWorkflow "s" [] (.inTime (.threw "")) (.inTime (.ok []))
      1000).errors = none := by
  decide

theorem isEmpty_append_cons (l1 : List α) (a : α) (l2 : List α) :
    (l1 ++ a :: l2).isEmpty = false := by
  cases l1 <;> rfl

/-- Claim C4 (amended): an exception/rejection or a timeout of **any**
check (security or compat) never escapes — it is converted to a failed
step result; the report is well formed with `incomplete = true` and
`failedSteps` containing that check's name; and `errors` contains the
check's error message prefixed with the step name **whenever that message
is non-empty** (a timeout message is never empty).  With an empty thrown
message the `errors` field is absent (see the counterexample). -/
theorem c4_error_containment (skillName : String) (specRaw : List Finding)
    (sec : Timed SecurityBehaviour) (comp : Timed CompatBehaviour)
    (tm : Nat) (msg : String) :
    ((runInspectorWorkflow skillName specRaw (.inTime (.threw msg)) comp
        tm).incomplete = true ∧
      (∃ l, (runInspectorWorkflow skillName specRaw (.inTime (.threw msg)) comp
          tm).failedSteps = some l ∧ "security" ∈ l) ∧
      (msg ≠ "" →
        ∃ es, (runInspectorWorkflow skillName specRaw (.inTime (.threw msg))
            comp tm).errors = some es ∧ ("security: " ++ msg) ∈ es)) ∧
    ((runInspectorWorkflow skillName specRaw .timedOut comp tm).incomplete
        = true ∧
      (∃ l, (runInspectorWorkflow skillName specRaw .timedOut comp
          tm).failedSteps = some l ∧ "security" ∈ l) ∧
      (∃ es e, (runInspectorWorkflow skillName specRaw .timedOut comp
          tm).errors = some es ∧
        (timeoutStepResult tm "security").error = some e ∧
        ("security: " ++ e) ∈ es)) ∧
    ((runInspectorWorkflow skillName specRaw sec (.inTime (.threw msg))
        tm).incomplete = true ∧
      (∃ l, (runInspectorWorkflow skillName specRaw sec (.inTime (.threw msg))
          tm).failedSteps = some l ∧ "compatibility" ∈ l) ∧
      (msg ≠ "" →
        ∃ es, (runInspectorWorkflow skillName specRaw sec
            (.inTime (.threw msg)) tm).errors = some es ∧
          ("compatibility: " ++ msg) ∈ es)) ∧
    ((runInspectorWorkflow skillName specRaw sec .timedOut tm).incomplete
        = true ∧
      (∃ l, (runInspectorWorkflow skillName specRaw sec .timedOut
          tm).failedSteps = some l ∧ "compatibility" ∈ l) ∧
      (∃ es e, (runInspectorWorkflow skillName specRaw sec .timedOut
          tm).errors = some es ∧
        (timeoutStepResult tm "compatibility").error = some e ∧
        ("compatibility: " ++ e) ∈ es)) := by
  refine ⟨?_, ?_, ?_, ?_⟩
  · -- the security check threw `msg`
    have hsec : securityStepResult (.inTime (.threw msg)) tm =
        { findings := [], failed := true, error := some msg } := rfl
    obtain ⟨-, -, -, hinc, hfs, herr⟩ :=
      runInspectorWorkflow_eq skillName specRaw (.inTime (.threw msg)) comp tm
    have hsteps : engineFailedSteps (.inTime (.threw msg)) comp tm =
        "security" :: (if (compatStepResult comp tm).failed then
          ["compatibility"] else []) := by
      simp [engineFailedSteps, hsec]
    refine ⟨?_, ?_, ?_⟩
    · rw [hinc, hsteps]; rfl
    · rw [hfs, hsteps]
      exact ⟨"security" :: (if (compatStepResult comp tm).failed then
          ["compatibility"] else []), by simp, by simp⟩
    · intro hmsg
      have herrs : engineErrors (.inTime (.threw msg)) comp tm =
          ("security: " ++ msg) ::
            (if (compatStepResult comp tm).failed then
              stepErrorEntry "compatibility" (compatStepResult comp tm).error
             else []) := by
        simp [engineErrors, hsec, stepErrorEntry, hmsg]
      rw [herr, hsteps, herrs]
      exact ⟨("security: " ++ msg) ::
          (if (compatStepResult comp tm).failed then
            stepErrorEntry "compatibility" (compatStepResult comp tm).error
           else []), by simp, by simp⟩
  · -- the security check timed out
    have hsec : securityStepResult .timedOut tm =
        timeoutStepResult tm "security" := rfl
    obtain ⟨-, -, -, hinc, hfs, herr⟩ :=
      runInspectorWorkflow_eq skillName specRaw .timedOut comp tm
    have hsteps : engineFailedSteps .timedOut comp tm =
        "security" :: (if (compatStepResult comp tm).failed then
          ["compatibility"] else []) := by
      simp [engineFailedSteps, hsec, timeoutStepResult]
    have htmsg : ("Step " ++ aposStr ++ "security" ++ aposStr ++
        " timed out after " ++ Nat.repr tm ++ "ms") ≠ "" :=
      strAppend_ne_empty_right _ _ (by decide)
    refine ⟨?_, ?_, ?_⟩
    · rw [hinc, hsteps]; rfl
    · rw [hfs, hsteps]
      exact ⟨"security" :: (if (compatStepResult comp tm).failed then
          ["compatibility"] else []), by simp, by simp⟩
    · have herrs : engineErrors .timedOut comp tm =
          ("security: " ++ ("Step " ++ aposStr ++ "security" ++ aposStr ++
            " timed out after " ++ Nat.repr tm ++ "ms")) ::
            (if (compatStepResult comp tm).failed then
              stepErrorEntry "compatibility" (compatStepResult comp tm).error
             else []) := by
        simp [engineErrors, hsec, timeoutStepResult, stepErrorEntry, htmsg]
      rw [herr, hsteps, herrs]
      exact ⟨("security: " ++ ("Step " ++ aposStr ++ "security" ++ aposStr ++
          " timed out after " ++ Nat.repr tm ++ "ms")) ::
          (if (compatStepResult comp tm).failed then
            stepErrorEntry "compatibility" (compatStepResult comp tm).error
           else []),
        "Step " ++ aposStr ++ "security" ++ aposStr ++ " timed out after " ++
          Nat.repr tm ++ "ms",
        by simp, rfl, by simp⟩
  · -- the compat check threw `msg`
    have hcomp : compatStepResult (.inTime (.threw msg)) tm =
        { findings := [], failed := true, error := some msg } := rfl
    obtain ⟨-, -, -, hinc, hfs, herr⟩ :=
      runInspectorWorkflow_eq skillName specRaw sec (.inTime (.threw msg)) tm
    have hsteps : engineFailedSteps sec (.inTime (.threw msg)) tm =
        (if (securityStepResult sec tm).failed then ["security"] else []) ++
          ["compatibility"] := by
      simp [engineFailedSteps, hcomp]
    refine ⟨?_, ?_, ?_⟩
    · rw [hinc, hsteps, isEmpty_append_cons]; rfl
    · rw [hfs, hsteps]
      exact ⟨(if (securityStepResult sec tm).failed then ["security"] else [])
          ++ ["compatibility"], by simp [isEmpty_append_cons], by simp⟩
    · intro hmsg
      have herrs : engineErrors sec (.inTime (.threw msg)) tm =
          (if (securityStepResult sec tm).failed then
            stepErrorEntry "security" (securityStepResult sec tm).error
           else []) ++ ["compatibility: " ++ msg] := by
        simp [engineErrors, hcomp, stepErrorEntry, hmsg]
      rw [herr, hsteps, herrs]
      exact ⟨(if (securityStepResult sec tm).failed then
            stepErrorEntry "security" (securityStepResult sec tm).error
           else []) ++ ["compatibility: " ++ msg],
        by simp [isEmpty_append_cons], by simp⟩
  · -- the compat check timed out
    have hcomp : compatStepResult .timedOut tm =
        timeoutStepResult tm "compatibility" := rfl
    obtain ⟨-, -, -, hinc, hfs, herr⟩ :=
      runInspectorWorkflow_eq skillName specRaw sec .timedOut tm
    have hsteps : engineFailedSteps sec .timedOut tm =
        (if (securityStepResult sec tm).failed then ["security"] else []) ++
          ["compatibility"] := by
      simp [engineFailedSteps, hcomp, timeoutStepResult]
    have htmsg : ("Step " ++ aposStr ++ "compatibility" ++ aposStr ++
        " timed out after " ++ Nat.repr tm ++ "ms") ≠ "" :=
      strAppend_ne_empty_right _ _ (by decide)
    refine ⟨?_, ?_, ?_⟩
    · rw [hinc, hsteps, isEmpty_append_cons]; rfl
    · rw [hfs, hsteps]
      exact ⟨(if (securityStepResult sec tm).failed then ["security"] else [])
          ++ ["compatibility"], by simp [isEmpty_append_cons], by simp⟩
    · have herrs : engineErrors sec .timedOut tm =
          (if (securityStepResult sec tm).failed then
            stepErrorEntry "security" (securityStepResult sec tm).error
           else []) ++
            ["compatibility: " ++ ("Step " ++ aposStr ++ "compatibility" ++
              aposStr ++ " timed out after " ++ Nat.repr tm ++ "ms")] := by
        simp [engineErrors, hcomp, timeoutStepResult, stepErrorEntry, htmsg]
      rw [herr, hsteps, herrs]
      exact ⟨(if (securityStepResult sec tm).failed then
            stepErrorEntry "security" (securityStepResult sec tm).error
           else []) ++
            ["compatibility: " ++ ("Step " ++ aposStr ++ "compatibility" ++
              aposStr ++ " timed out after " ++ Nat.repr tm ++ "ms")],
        "Step " ++ aposStr ++ "compatibility" ++ aposStr ++
          " timed out after " ++ Nat.repr tm ++ "ms",
        by simp [isEmpty_append_cons], rfl, by simp⟩

/-! ## Claim C3 -/

/-- A finding produced by the succeeded `explore` step of a partially
failing security run. -/
def c3Finding : Finding :=
  { severity := .high, message := "Suspicious hidden file",
    agent := some "SecurityExplorer" }

/-- Inner security-workflow steps: `explore` succeeded with one finding,
`audit` failed. -/
def c3Steps : List (String × Option StepOutput) :=
  [("explore", some { findings := some [c3Finding] }),
   ("audit", some { findings := some [], failed := true, error := some "boom" })]

/-- Counterexample to claim C3 as stated: when the security check's inner
workflow partially fails (here the `explore` step succeeds with a finding
and the `audit` step fails), `runSecurityCheck` returns `failed = true`
**together with** the explore finding, and the engine keeps that finding
in the merged list of an incomplete report.  So an outcome can carry both
findings and a failure, and the merged list is not restricted to Ok
outcomes. -/
theorem c3_counterexample :
    (runSecurityCheck (.ran c3Steps)).failed = true ∧
    (runSecurityCheck (.ran c3Steps)).findings ≠ [] ∧
    c3Finding ∈ (runInspectorWorkflow "s" [] (.inTime (.ran c3Steps))
      (.inTime (.ok [])) 1000).findings ∧
    (runInspectorWorkflow "s" [] (.inTime (.ran c3Steps))
      (.inTime (.ok [])) 1000).incomplete = true := by
  decide

/-- Claim C3 (amended): a timed-out check and a check that throws at the
engine boundary contribute zero findings, but a security run whose inner
steps partially fail returns `failed = true` together with the findings
collected from its succeeded sub-steps, and the engine merges those
findings into the report. -/
theorem c3_failed_step_findings :
    (∀ (tm : Nat) (stepName : String),
      (runWithTimeout .timedOut tm stepName).findings = [] ∧
        (runWithTimeout .timedOut tm stepName).failed = true) ∧
    (∀ msg, runSecurityCheck (.threw msg) =
      { findings := [], failed := true, error := some msg }) ∧
    (∀ msg, runCompatCheck (.threw msg) =
      { findings := [], failed := true, error := some msg }) ∧
    (∀ steps, (runSecurityCheck (.ran steps)).findings =
        (collectSecuritySteps steps).1 ∧
      (runSecurityCheck (.ran steps)).failed =
        !(collectSecuritySteps steps).2.1.isEmpty) ∧
    (∀ (skillName : String) (specRaw : List Finding) steps
        (comp : Timed CompatBehaviour) (tm : Nat),
      (collectSecuritySteps steps).1 ⊆
        (runInspectorWorkflow skillName specRaw (.inTime (.ran steps)) comp
          tm).findings) := by
  refine ⟨fun tm stepName => ⟨rfl, rfl⟩, fun msg => rfl, fun msg => rfl,
    ?_, ?_⟩
  · intro steps
    unfold runSecurityCheck
    rcases hc : collectSecuritySteps steps with ⟨fs, fails, errs⟩
    by_cases hfe : fails.isEmpty
    · simp [hc, hfe]
    · simp [hc, hfe]
  · intro skillName specRaw steps comp tm f hf
    obtain ⟨-, -, hfind, -, -, -⟩ :=
      runInspectorWorkflow_eq skillName specRaw (.inTime (.ran steps)) comp tm
    rw [hfind]
    unfold mergedFindings
    have hsec : (securityStepResult (.inTime (.ran steps)) tm).findings =
        (collectSecuritySteps steps).1 := by
      show (runSecurityCheck (.ran steps)).findings = _
      unfold runSecurityCheck
      rcases hc : collectSecuritySteps steps with ⟨fs, fails, errs⟩
      by_cases hfe : fails.isEmpty
      · simp [hc, hfe]
      · simp [hc, hfe]
    rw [List.append_assoc]
    apply List.mem_append_right
    apply List.mem_append_left
    rw [hsec]
    exact hf

theorem c3_witness :
    c3Finding ∈ (runInspectorWorkflow "s" [] (.inTime (.ran c3Steps))
      (.inTime (.ok [])) 1000).findings :=
  c3_failed_step_findings.2.2.2.2 "s" [] c3Steps (.inTime (.ok [])) 1000
    (by decide)

theorem c4_witness :
    (runInspectorWorkflow "s" [] (.inTime (.threw "boom")) (.inTime (.ok []))
      1000).incomplete = true ∧
    (∃ es, (runInspectorWorkflow "s" [] (.inTime (.threw "boom"))
        (.inTime (.ok [])) 1000).errors = some es ∧
      ("security: " ++ "boom") ∈ es) ∧
    (runInspectorWorkflow "s" [] (.inTime (.ran [])) (.inTime (.threw "boom"))
      1000).incomplete = true ∧
    (∃ es, (runInspectorWorkflow "s" [] (.inTime (.ran []))
        (.inTime (.threw "boom")) 1000).errors = some es ∧
      ("compatibility: " ++ "boom") ∈ es) :=
  ⟨(c4_error_containment "s" [] (.inTime (.ran [])) (.inTime (.ok [])) 1000
      "boom").1.1,
    (c4_error_containment "s" [] (.inTime (.ran [])) (.inTime (.ok [])) 1000
      "boom").1.2.2 (by decide),
    (c4_error_containment "s" [] (.inTime (.ran [])) (.inTime (.ok [])) 1000
      "boom").2.2.1.1,
    (c4_error_containment "s" [] (.inTime (.ran [])) (.inTime (.ok [])) 1000
      "boom").2.2.1.2.2 (by decide)⟩

/-! ## Claim C1 -/

/-- Counterexample to claim C1 as stated: the artifact body
`"Run: rm -rf /data"` makes the Pattern Scanner produce a finding, yet a
run of `runInspectorWorkflow` on an artifact with that body (valid spec,
both checks Ok with no findings) returns an empty merged finding list:
the engine never invokes `scanPatterns`, so the scanner's findings are
not part of the merged list (and `mapCompliance` is likewise never
applied to it). -/
theorem c1_counterexample :
    scanPatterns "Run: rm -rf /data" "SKILL.md" ≠ [] ∧
    (runInspectorWorkflow "safe-skill" [] (.inTime (.ran []))
      (.inTime (.ok [])) 120000).findings = [] := by
  decide

/-- Claim C1 (amended): step 1 of `runInspectorWorkflow` runs only the
Spec Validator synchronously; the merged finding list is exactly the spec
findings (agents defaulted to `SpecValidator`) followed by the security
and compat step findings; that list is scored directly, and no compliance
enrichment happens anywhere in the engine: if no input finding carries a
compliance field, no finding of the report does either (`mapCompliance`
is not invoked). -/
theorem c1_engine_composition (skillName : String) (specRaw : List Finding)
    (sec : Timed SecurityBehaviour) (comp : Timed CompatBehaviour) (tm : Nat) :
    (runInspectorWorkflow skillName specRaw sec comp tm).findings =
      specTagged specRaw ++ (securityStepResult sec tm).findings ++
        (compatStepResult comp tm).findings ∧
    (runInspectorWorkflow skillName specRaw sec comp tm).overallScore =
      (calculateNormalizedScore
        (runInspectorWorkflow skillName specRaw sec comp tm).findings
        (engineFailedSteps sec comp tm)).score ∧
    ((∀ f ∈ specRaw, f.compliance = none) →
      (∀ f ∈ (securityStepResult sec tm).findings, f.compliance = none) →
      (∀ f ∈ (compatStepResult comp tm).findings, f.compliance = none) →
      ∀ f ∈ (runInspectorWorkflow skillName specRaw sec comp tm).findings,
        f.compliance = none) := by
  refine ⟨rfl, rfl, ?_⟩
  intro hspec hsec hcomp f hf
  obtain ⟨-, -, hfind, -, -, -⟩ :=
    runInspectorWorkflow_eq skillName specRaw sec comp tm
  rw [hfind] at hf
  unfold mergedFindings at hf
  rcases List.mem_append.mp hf with hf1 | hfc
  · rcases List.mem_append.mp hf1 with hfs | hfsec
    · obtain ⟨g, hg, rfl⟩ := List.mem_map.mp hfs
      exact hspec g hg
    · exact hsec f hfsec
  · exact hcomp f hfc

def c1SpecFinding : Finding :=
  { severity := .low, message := "Missing description" }

theorem c1_witness :
    ({ severity := .low, message := "Missing description",
       agent := some "SpecValidator" } : Finding).compliance = none :=
  (c1_engine_composition "s" [c1SpecFinding] (.inTime (.ran []))
      (.inTime (.ok [])) 1000).2.2
    (by decide) (by decide) (by decide)
    { severity := .low, message := "Missing description",
      agent := some "SpecValidator" }
    (by decide)

/-! ## Pattern-scanner lemmas -/

/-- A `filterMap` whose function is an `Option.map` splits into a filter
on the option being present followed by a map. -/
theorem filterMap_option_map_eq (h : α → Option Nat) (k : α → Nat → β) :
    ∀ l : List α,
      l.filterMap (fun a => (h a).map (k a)) =
        (l.filter (fun a => (h a).isSome)).map (fun a => k a ((h a).getD 0)) := by
  intro l
  induction l with
  | nil => rfl
  | cons x xs ih =>
    cases hx : h x with
    | none => simp [List.filterMap_cons, List.filter_cons, hx, ih]
    | some i => simp [List.filterMap_cons, List.filter_cons, hx, ih]

/-- The `firstMatchIdx` returns the index of the earliest element satisfying
the predicate: the element there matches and no earlier one does. -/
theorem firstMatchIdx_spec {p : α → Bool} :
    ∀ {ls : List α} {i : Nat}, firstMatchIdx p ls = some i →
      ∃ h : i < ls.length, p (ls.get ⟨i, h⟩) = true ∧
        ∀ j (hj : j < ls.length), j < i → p (ls.get ⟨j, hj⟩) = false := by
  intro ls
  induction ls with
  | nil => intro i h; exact absurd h (by simp [firstMatchIdx])
  | cons l ls ih =>
    intro i h
    unfold firstMatchIdx at h
    by_cases hp : p l
    · rw [if_pos hp] at h
      obtain rfl : (0 : Nat) = i := Option.some.inj h
      exact ⟨by simp, hp, fun j hj hji => absurd hji (by omega)⟩
    · rw [if_neg hp] at h
      cases hfi : firstMatchIdx p ls with
      | none => rw [hfi] at h; exact absurd h (by simp)
      | some i0 =>
        rw [hfi] at h
        obtain rfl : i0 + 1 = i := Option.some.inj h
        obtain ⟨hlt, hpi, hprev⟩ := ih hfi
        refine ⟨by simpa using Nat.succ_lt_succ hlt, by simpa using hpi, ?_⟩
        intro j hj hji
        cases j with
        | zero => simpa using hp
        | succ j0 =>
          have := hprev j0 (by simpa using Nat.lt_of_succ_lt_succ hj) (by omega)
          simpa using this

theorem firstMatchIdx_isSome_iff (p : α → Bool) :
    ∀ ls : List α,
      (firstMatchIdx p ls).isSome = true ↔ ∃ l ∈ ls, p l = true := by
  intro ls
  induction ls with
  | nil => simp [firstMatchIdx]
  | cons x xs ih =>
    rw [show firstMatchIdx p (x :: xs) =
      (if p x then some 0 else (firstMatchIdx p xs).map (· + 1)) from rfl]
    by_cases hp : p x
    · rw [if_pos hp]
      simp only [Option.isSome_some, true_iff]
      exact ⟨x, by simp, hp⟩
    · rw [if_neg hp, Option.isSome_map', ih]
      constructor
      · rintro ⟨l, hl, hpl⟩
        exact ⟨l, by simp [hl], hpl⟩
      · rintro ⟨l, hl, hpl⟩
        rcases List.mem_cons.mp hl with rfl | hl2
        · exact absurd hpl hp
        · exact ⟨l, hl2, hpl⟩

/-! ## Claim C6 -/

/-- Claim C6: for every content and label, `scanPatterns` is exactly the
catalog-order map over the rules whose first matching line exists — so it
emits at most one finding per rule, the fired rules are a sublist of the
catalog (fixed order), each emitted finding is rendered from the
**earliest** matching line (`renderFinding` interpolates the 1-based
index `i + 1`), and the function is deterministic (pure). -/
theorem c6_scanner_structure (content label : String) :
    (scanPatterns content label =
      (PATTERN_RULES.filter
        (fun r => (firstMatchIdx r.test (splitLines content.data)).isSome)).map
        (fun r => renderFinding r label
          ((firstMatchIdx r.test (splitLines content.data)).getD 0))) ∧
    List.Sublist
      (PATTERN_RULES.filter
        (fun r => (firstMatchIdx r.test (splitLines content.data)).isSome))
      PATTERN_RULES ∧
    (∀ (r : PatternRule) (i : Nat),
      firstMatchIdx r.test (splitLines content.data) = some i →
        ∃ h : i < (splitLines content.data).length,
          r.test ((splitLines content.data).get ⟨i, h⟩) = true ∧
            ∀ j (hj : j < (splitLines content.data).length), j < i →
              r.test ((splitLines content.data).get ⟨j, hj⟩) = false) ∧
    scanPatterns content label = scanPatterns content label := by
  refine ⟨?_, List.filter_sublist _, fun r i h => firstMatchIdx_spec h, rfl⟩
  unfold scanPatterns
  exact filterMap_option_map_eq _ _ PATTERN_RULES

/-- Content whose second and third lines (0-based indices 1 and 2) match
the `rm-rf` rule. -/
def c6Content : String :=
  "safe line" ++ String.mk [newlineChar] ++ "rm -rf /a" ++
    String.mk [newlineChar] ++ "rm -rf /b"

theorem c6_witness :
    ∃ h : 1 < (splitLines c6Content.data).length,
      (PATTERN_RULES.get ⟨6, by decide⟩).test
          ((splitLines c6Content.data).get ⟨1, h⟩) = true ∧
        ∀ j (hj : j < (splitLines c6Content.data).length), j < 1 →
          (PATTERN_RULES.get ⟨6, by decide⟩).test
            ((splitLines c6Content.data).get ⟨j, hj⟩) = false :=
  (c6_scanner_structure c6Content "SKILL.md").2.2.1
    (PATTERN_RULES.get ⟨6, by decide⟩) 1 (by decide)

/-! ## Base64-run characterization (for claim C7) -/

/-- The `exactlyAt φ n` succeeds exactly when the input starts with `n`
characters of the class `φ`. -/
theorem exactlyAt_isSome_iff (φ : Char → Bool) :
    ∀ (n : Nat) (cs : List Char),
      (exactlyAt φ n cs).isSome = true ↔
        ∃ p : List Char, p <+: cs ∧ p.length = n ∧ ∀ c ∈ p, φ c = true := by
  intro n
  induction n with
  | zero =>
    intro cs
    simp only [exactlyAt, Option.isSome_some, true_iff]
    exact ⟨[], List.nil_prefix, rfl, by simp⟩
  | succ m ih =>
    intro cs
    cases cs with
    | nil =>
      simp only [exactlyAt, Option.isSome_none, Bool.false_eq_true, false_iff]
      rintro ⟨p, hp, hlen, -⟩
      rw [List.prefix_nil.mp hp] at hlen
      simp at hlen
    | cons c cs =>
      rw [show exactlyAt φ (m + 1) (c :: cs) =
        (if φ c then exactlyAt φ m cs else none) from rfl]
      by_cases hc : φ c
      · rw [if_pos hc, ih]
        constructor
        · rintro ⟨p, hp, hlen, hall⟩
          refine ⟨c :: p, List.cons_prefix_cons.mpr ⟨rfl, hp⟩,
            by simp [hlen], ?_⟩
          intro x hx
          rcases List.mem_cons.mp hx with rfl | hx2
          · exact hc
          · exact hall x hx2
        · rintro ⟨p, hp, hlen, hall⟩
          cases p with
          | nil => simp at hlen
          | cons a p2 =>
            obtain ⟨rfl, hp2⟩ := List.cons_prefix_cons.mp hp
            exact ⟨p2, hp2, by simpa using hlen,
              fun x hx => hall x (List.mem_cons_of_mem _ hx)⟩
      · rw [if_neg hc]
        simp only [Option.isSome_none, Bool.false_eq_true, false_iff]
        rintro ⟨p, hp, hlen, hall⟩
        cases p with
        | nil => simp at hlen
        | cons a p2 =>
          obtain ⟨rfl, -⟩ := List.cons_prefix_cons.mp hp
          exact hc (hall a (by simp))

/-- The `existsSuffix` tries the predicate on every suffix. -/
theorem existsSuffix_iff (p : List Char → Bool) :
    ∀ cs : List Char,
      existsSuffix p cs = true ↔ ∃ t, t <:+ cs ∧ p t = true := by
  intro cs
  induction cs with
  | nil =>
    simp only [existsSuffix]
    constructor
    · intro h; exact ⟨[], List.suffix_refl [], h⟩
    · rintro ⟨t, ht, hp⟩
      rw [List.suffix_nil.mp ht] at hp
      exact hp
  | cons c cs ih =>
    rw [show existsSuffix p (c :: cs) =
      (p (c :: cs) || existsSuffix p cs) from rfl]
    rw [Bool.or_eq_true, ih]
    constructor
    · rintro (h | ⟨t, ht, hp⟩)
      · exact ⟨c :: cs, List.suffix_refl _, h⟩
      · exact ⟨t, ht.trans (List.suffix_cons c cs), hp⟩
    · rintro ⟨t, ht, hp⟩
      rcases List.suffix_cons_iff.mp ht with rfl | ht2
      · exact Or.inl hp
      · exact Or.inr ⟨t, ht2, hp⟩

/-- A position matcher that ignores the previous character scans like
`existsSuffix`. -/
theorem scanWithPrev_eq_existsSuffix (p : Option Char → List Char → Bool)
    (q : List Char → Bool) (hq : ∀ prev cs, p prev cs = q cs) :
    ∀ (cs : List Char) (prev : Option Char),
      scanWithPrev p prev cs = existsSuffix q cs := by
  intro cs
  induction cs with
  | nil =>
    intro prev
    rw [show scanWithPrev p prev [] = p prev [] from rfl, hq]
    rfl
  | cons c cs ih =>
    intro prev
    rw [show scanWithPrev p prev (c :: cs) =
      (p prev (c :: cs) || scanWithPrev p (some c) cs) from rfl]
    rw [hq, ih]
    rfl

/-- The `base64-long-blob` matcher fires on a line exactly when the line
has a contiguous run of 200 base64-alphabet characters. -/
theorem base64_test_iff (l : List Char) :
    testAnywhere base64LongBlobAt l = true ↔
      ∃ run : List Char, run <:+: l ∧ run.length = 200 ∧
        ∀ c ∈ run, isBase64Char c = true := by
  rw [show testAnywhere base64LongBlobAt l =
    scanWithPrev base64LongBlobAt none l from rfl]
  rw [scanWithPrev_eq_existsSuffix base64LongBlobAt
    (fun cs => (exactlyAt isBase64Char 200 cs).isSome) (fun _ _ => rfl) l none]
  rw [existsSuffix_iff]
  constructor
  · rintro ⟨t, ht, hp⟩
    obtain ⟨p, hpre, hlen, hall⟩ :=
      (exactlyAt_isSome_iff isBase64Char 200 t).mp hp
    exact ⟨p, List.infix_iff_prefix_suffix.mpr ⟨t, hpre, ht⟩, hlen, hall⟩
  · rintro ⟨run, hinf, hlen, hall⟩
    obtain ⟨t, hpre, hsuf⟩ := List.infix_iff_prefix_suffix.mp hinf
    exact ⟨t, hsuf,
      (exactlyAt_isSome_iff isBase64Char 200 t).mpr ⟨run, hpre, hlen, hall⟩⟩

theorem headMatch_append_of_le :
    ∀ (needle m rest : List Char), needle.length ≤ m.length →
      headMatch needle (m ++ rest) = headMatch needle m := by
  intro needle
  induction needle with
  | nil => intro m rest _; rfl
  | cons a as ih =>
    intro m rest h
    cases m with
    | nil => simp at h
    | cons b bs =>
      simp only [List.cons_append, headMatch, List.append_eq]
      rw [ih bs rest (by simpa using h)]

/-- Findings whose message is the `base64-long-blob` rule's message (all
scanner messages are pairwise non-prefixing, so the 11-character tag
`"Long base64"` identifies the rule). -/
def isBase64Finding (f : Finding) : Bool :=
  headMatch "Long base64".data f.message.data

theorem render_not_base64 (r : PatternRule) (label : String) (i : Nat)
    (hlen : ("Long base64".data).length ≤ r.message.data.length)
    (hpref : headMatch "Long base64".data r.message.data = false) :
    isBase64Finding (renderFinding r label i) = false := by
  unfold isBase64Finding renderFinding
  simp only [String.data_append, List.append_assoc]
  rw [headMatch_append_of_le _ _ _ hlen, hpref]

theorem render_base64_tag (label : String) (i : Nat) :
    isBase64Finding
      (renderFinding (PATTERN_RULES.get ⟨12, by decide⟩) label i) = true := by
  unfold isBase64Finding renderFinding
  simp only [String.data_append, List.append_assoc]
  rw [headMatch_append_of_le _ _ _ (by decide)]
  decide

/-- The catalog split around the `base64-long-blob` rule (index 12). -/
theorem pattern_rules_split :
    PATTERN_RULES = PATTERN_RULES.take 12 ++
      PATTERN_RULES.get ⟨12, by decide⟩ :: PATTERN_RULES.drop 13 := rfl

/-- Exactly one base64 finding is emitted when the matcher fires on some
line, none otherwise. -/
theorem count_base64_findings (content label : String) :
    ((scanPatterns content label).filter isBase64Finding).length =
      if (firstMatchIdx (testAnywhere base64LongBlobAt)
          (splitLines content.data)).isSome then 1 else 0 := by
  have hsame : testAnywhere base64LongBlobAt =
      (PATTERN_RULES.get ⟨12, by decide⟩).test := rfl
  simp only [hsame]
  unfold scanPatterns
  rw [← List.countP_eq_length_filter, List.countP_filterMap]
  nth_rewrite 1 [pattern_rules_split]
  rw [List.countP_append, List.countP_cons]
  have hpre : ∀ r ∈ PATTERN_RULES.take 12,
      headMatch ("Long base64".data) r.message.data = false ∧
        ("Long base64".data).length ≤ r.message.data.length := by decide
  have hpost : ∀ r ∈ PATTERN_RULES.drop 13,
      headMatch ("Long base64".data) r.message.data = false ∧
        ("Long base64".data).length ≤ r.message.data.length := by decide
  have hzero : ∀ (rules : List PatternRule),
      (∀ r ∈ rules,
        headMatch ("Long base64".data) r.message.data = false ∧
          ("Long base64".data).length ≤ r.message.data.length) →
      List.countP
        (fun r => (((firstMatchIdx r.test (splitLines content.data)).map
          (renderFinding r label)).map isBase64Finding).getD false) rules = 0 := by
    intro rules hall
    rw [List.countP_eq_zero]
    intro r hr
    obtain ⟨hpref, hlen⟩ := hall r hr
    cases hidx : firstMatchIdx r.test (splitLines content.data) with
    | none => simp [hidx]
    | some i => simp [hidx, render_not_base64 r label i hlen hpref]
  rw [hzero _ hpre, hzero _ hpost]
  cases hidx : firstMatchIdx (PATTERN_RULES.get ⟨12, by decide⟩).test
      (splitLines content.data) with
  | none => simp [hidx]
  | some i =>
    simp only [hidx, Option.map_some', Option.getD_some]
    rw [if_pos (render_base64_tag label i)]
    simp

/-! ## Claim C7 -/

/-- Claim C7: a content line whose base64-alphabet runs all stay below 200
characters (e.g. a run of exactly 199) produces no `base64-long-blob`
finding, while content with a run of (at least) exactly 200 such
characters produces exactly one such finding, and it has severity
`medium`. -/
theorem c7_base64_threshold (content label : String) :
    ((∀ l ∈ splitLines content.data,
        ¬ ∃ run : List Char, run <:+: l ∧ run.length = 200 ∧
          ∀ c ∈ run, isBase64Char c = true) →
      ((scanPatterns content label).filter isBase64Finding).length = 0) ∧
    ((∃ l ∈ splitLines content.data,
        ∃ run : List Char, run <:+: l ∧ run.length = 200 ∧
          ∀ c ∈ run, isBase64Char c = true) →
      ((scanPatterns content label).filter isBase64Finding).length = 1 ∧
        ∀ f ∈ (scanPatterns content label).filter isBase64Finding,
          f.severity = Severity.medium) := by
  have hiff : (firstMatchIdx (testAnywhere base64LongBlobAt)
      (splitLines content.data)).isSome = true ↔
      ∃ l ∈ splitLines content.data,
        ∃ run : List Char, run <:+: l ∧ run.length = 200 ∧
          ∀ c ∈ run, isBase64Char c = true := by
    rw [firstMatchIdx_isSome_iff]
    constructor
    · rintro ⟨l, hl, hp⟩
      exact ⟨l, hl, (base64_test_iff l).mp hp⟩
    · rintro ⟨l, hl, hrun⟩
      exact ⟨l, hl, (base64_test_iff l).mpr hrun⟩
  constructor
  · intro hno
    rw [count_base64_findings]
    have hfalse : (firstMatchIdx (testAnywhere base64LongBlobAt)
        (splitLines content.data)).isSome = false := by
      cases hb : (firstMatchIdx (testAnywhere base64LongBlobAt)
          (splitLines content.data)).isSome with
      | false => rfl
      | true =>
        obtain ⟨l, hl, hrun⟩ := hiff.mp hb
        exact absurd hrun (hno l hl)
    simp [hfalse]
  · intro hyes
    have hb : (firstMatchIdx (testAnywhere base64LongBlobAt)
        (splitLines content.data)).isSome = true := hiff.mpr hyes
    refine ⟨by rw [count_base64_findings]; simp [hb], ?_⟩
    intro f hf
    obtain ⟨hmem, htag⟩ := List.mem_filter.mp hf
    unfold scanPatterns at hmem
    obtain ⟨r, hr, hopt⟩ := List.mem_filterMap.mp hmem
    cases hidx : firstMatchIdx r.test (splitLines content.data) with
    | none => rw [hidx] at hopt; exact absurd hopt (by simp)
    | some i =>
      rw [hidx] at hopt
      obtain rfl : renderFinding r label i = f := by simpa using hopt
      have hsev : r.severity = Severity.medium := by
        have hpre : ∀ rr ∈ PATTERN_RULES.take 12,
            headMatch ("Long base64".data) rr.message.data = false ∧
              ("Long base64".data).length ≤ rr.message.data.length := by decide
        have hpost : ∀ rr ∈ PATTERN_RULES.drop 13,
            headMatch ("Long base64".data) rr.message.data = false ∧
              ("Long base64".data).length ≤ rr.message.data.length := by decide
        rw [pattern_rules_split] at hr
        rcases List.mem_append.mp hr with hr1 | hr2
        · obtain ⟨hpref, hlen⟩ := hpre r hr1
          rw [render_not_base64 r label i hlen hpref] at htag
          exact absurd htag (by simp)
        · rcases List.mem_cons.mp hr2 with rfl | hr3
          · decide
          · obtain ⟨hpref, hlen⟩ := hpost r hr3
            rw [render_not_base64 r label i hlen hpref] at htag
            exact absurd htag (by simp)
      exact hsev

set_option maxRecDepth 40000

def c7Line199 : String := String.mk (List.replicate 199 'A')

def c7Line200 : String := String.mk (List.replicate 200 'A')

theorem c7_witness :
    ((scanPatterns c7Line199 "SKILL.md").filter isBase64Finding).length = 0 ∧
    ((scanPatterns c7Line200 "SKILL.md").filter isBase64Finding).length = 1 := by
  constructor
  · apply (c7_base64_threshold c7Line199 "SKILL.md").1
    intro l hl
    have hl2 : l = List.replicate 199 'A' := by
      have hsplit : splitLines c7Line199.data = [List.replicate 199 'A'] := by
        decide
      rw [hsplit] at hl
      simpa using hl
    subst hl2
    rintro ⟨run, hinf, hlen, hall⟩
    have htrue : testAnywhere base64LongBlobAt (List.replicate 199 'A') = true :=
      (base64_test_iff _).mpr ⟨run, hinf, hlen, hall⟩
    have hfalse : testAnywhere base64LongBlobAt (List.replicate 199 'A')
        = false := by decide
    rw [hfalse] at htrue
    exact absurd htrue (by simp)
  · refine ((c7_base64_threshold c7Line200 "SKILL.md").2 ?_).1
    refine ⟨List.replicate 200 'A', ?_, List.replicate 200 'A',
      List.infix_refl _, List.length_replicate 200 _, ?_⟩
    · have hsplit : splitLines c7Line200.data = [List.replicate 200 'A'] := by
        decide
      rw [hsplit]
      simp
    · intro c hc
      rw [List.eq_of_mem_replicate hc]
      decide

end SkillInspector
